import Mathlib

/- Verification development for the OpenAPI-to-MCP-server generator core:
   schema translation (mapOpenApiSchemaToJsonSchema), tool extraction
   (extractToolsFromApi), input-contract assembly (generateInputSchema),
   base-URL resolution (determineBaseUrl), the generated call handler
   (argument validation, path substitution, request assembly) and error
   normalization (formatApiError). -/

namespace OpenApiMcp

/-! Decimal rendering of numbers, as JS template interpolation and String()
    produce for integers. -/

def digitChar (d : Nat) : Char := Char.ofNat (48 + d)

def charDigit (c : Char) : Nat := c.toNat - 48

/-- Digit characters of a positive natural number, most significant
first; `fuel` bounds the division chain and any fuel of at least n is
enough. -/
def natDecimalAux : Nat → Nat → List Char
  | 0, _ => []
  | _ + 1, 0 => []
  | fuel + 1, n + 1 => natDecimalAux fuel ((n + 1) / 10) ++ [digitChar ((n + 1) % 10)]

/-- Decimal rendering of a natural number (JS rendering of a nonnegative
integer in a template literal). -/
def natDecimal (n : Nat) : String :=
  if n = 0 then "0" else ⟨natDecimalAux n n⟩

/-- Decimal rendering of an integer, as JS String(n) for integral numbers. -/
def intDecimal (i : Int) : String :=
  if i < 0 then "-" ++ natDecimal i.natAbs else natDecimal i.natAbs

/-- Decimal parser, used only as a left inverse of natDecimal in proofs. -/
def parseDecimal (s : String) : Nat :=
  Nat.ofDigits 10 (s.data.map charDigit).reverse

/-! The source schema language (OpenAPI SchemaObject nodes).

    A JS value of this shape is an object graph: a property or item slot
    holds a reference to another schema object, and the graph may be cyclic
    (a schema can reach itself).  We model object identity explicitly:
    schema nodes live in a heap `Env` indexed by node ids, and a property
    or item slot holds either a node id or an inline boolean schema. -/

/-- The `type` field of a schema node: absent, a single string, or an
array of strings (the code handles the array form defensively). -/
inductive STy where
  | noneTy
  | single (t : String)
  | multiple (ts : List String)
deriving DecidableEq

/-- A property or item slot of a source schema object: a reference to
another schema node, or an inline boolean schema. -/
inductive SEntry where
  | nodeRef (id : Nat)
  | boolE (b : Bool)
deriving DecidableEq

/-- One source schema object.  The six presentation-only fields
(example, xml, externalDocs, deprecated, readOnly, writeOnly) are modelled
by presence flags, since the translator only ever deletes them; `ref`
models presence of a `$ref` key.  Validation-neutral passthrough fields
other than `description` are not modelled. -/
structure SNode where
  ref : Option String := none
  ty : STy := .noneTy
  nullable : Bool := false
  description : Option String := none
  hasExample : Bool := false
  hasXml : Bool := false
  hasExternalDocs : Bool := false
  hasDeprecated : Bool := false
  hasReadOnly : Bool := false
  hasWriteOnly : Bool := false
  properties : Option (List (String × SEntry)) := none
  items : Option SEntry := none
deriving DecidableEq

/-- The heap of source schema objects. -/
def Env : Type := Nat → SNode

/-- A translated JSON-Schema value (the subset of JSONSchema7 the
translator manipulates).  `raw i` represents a slot of the result that
holds an untranslated reference to source node `i`: the translator copies
the source's property/item slots verbatim when it does not recurse into
them. -/
inductive JSchema where
  | boolS (b : Bool)
  | raw (id : Nat)
  | objS (ty : STy) (description : Option String)
      (hasExample hasXml hasExternalDocs hasDeprecated hasReadOnly hasWriteOnly : Bool)
      (properties : Option (List (String × JSchema)))
      (items : Option JSchema)

/-- The `type` of a translated schema (objS case). -/
def jType : JSchema → STy
  | .objS t _ _ _ _ _ _ _ _ _ => t
  | _ => .noneTy

/-- Nullable adjustment of the type field, lines 623-627 of the source:
an array type gets "null" pushed if missing, a string type becomes a
two-element array, an absent type becomes exactly "null". -/
def nullableAdjust : STy → STy
  | .multiple ts => if ts.contains "null" then .multiple ts else .multiple (ts ++ ["null"])
  | .single t => .multiple [t, "null"]
  | .noneTy => .single "null"

/-- The integer-to-number coercion of line 620: a declared single "integer"
type becomes "number"; everything else is unchanged. -/
def coerceType (t : STy) : STy :=
  if t = STy.single "integer" then STy.single "number" else t

/-- A property slot carried over verbatim (no recursion into it). -/
def rawEntry : String × SEntry → String × JSchema
  | (k, .nodeRef i) => (k, .raw i)
  | (k, .boolE b) => (k, .boolS b)

/-- Translation of the entries of a properties map (the loop of lines
630-633) with `f` translating one referenced node: object-valued entries
are recursed into, boolean entries kept; a failing entry translation
(insufficient fuel) fails the whole list. -/
def mapEntriesWith (f : Nat → Option JSchema) :
    List (String × SEntry) → Option (List (String × JSchema))
  | [] => some []
  | (k, .boolE b) :: rest =>
    match mapEntriesWith f rest with
    | some l => some ((k, .boolS b) :: l)
    | none => none
  | (k, .nodeRef i) :: rest =>
    match f i with
    | some j =>
      match mapEntriesWith f rest with
      | some l => some ((k, j) :: l)
      | none => none
    | none => none

/-- Translation of one source schema node (mapOpenApiSchemaToJsonSchema,
lines 612-640).  The source function recurses on the object graph and has
no cycle guard; `fuel` bounds the recursion depth so the embedding is
total: a `none` result means the source recursion has not returned within
`fuel` nested calls.  The branch structure follows the source exactly:
a `$ref` key yields the lenient unresolved-reference object; the copy is
transformed by the integer coercion, the six deletions, and the nullable
adjustment, in that order; properties are recursed into only when the
adjusted type is exactly the string "object" and the properties key is
present; the item schema is recursed into only when the adjusted type is
exactly the string "array" and the items slot holds an object. -/
def mapOpenApiSchemaToJsonSchema (env : Env) : Nat → Nat → Option JSchema
  | 0, _ => none
  | fuel + 1, id =>
    let s := env id
    match s.ref with
    | some r =>
      some (.objS (.single "object") (some ("Unresolved: " ++ r))
        false false false false false false none none)
    | none =>
      let t1 := coerceType s.ty
      let t2 := if s.nullable then nullableAdjust t1 else t1
      let propsRes : Option (Option (List (String × JSchema))) :=
        match s.properties with
        | none => some none
        | some plist =>
          if t2 = STy.single "object" then
            match mapEntriesWith (fun i => mapOpenApiSchemaToJsonSchema env fuel i) plist with
            | some l => some (some l)
            | none => none
          else some (some (plist.map rawEntry))
      match propsRes with
      | none => none
      | some props =>
        let itemsRes : Option (Option JSchema) :=
          match s.items with
          | none => some none
          | some (.boolE b) => some (some (.boolS b))
          | some (.nodeRef i) =>
            if t2 = STy.single "array" then
              match mapOpenApiSchemaToJsonSchema env fuel i with
              | some j => some (some j)
              | none => none
            else some (some (.raw i))
        match itemsRes with
        | none => none
        | some its =>
          some (.objS t2 s.description false false false false false false props its)

/-- True when one of the six presentation-only fields is present on a
source node. -/
def sNodeFlags (s : SNode) : Bool :=
  s.hasExample || s.hasXml || s.hasExternalDocs || s.hasDeprecated ||
  s.hasReadOnly || s.hasWriteOnly

mutual

/-- Every object node of a translated result that the translator itself
produced has the six presentation-only fields deleted; slots the
translator carried over verbatim (`raw`, `boolS`) are not constrained. -/
def strippedMapped : JSchema → Bool
  | .boolS _ => true
  | .raw _ => true
  | .objS _ _ e x ed dp ro wo props its =>
    !e && !x && !ed && !dp && !ro && !wo &&
    (match props with | some l => strippedList l | none => true) &&
    (match its with | some j => strippedMapped j | none => true)

/-- strippedMapped over the entries of a properties map. -/
def strippedList : List (String × JSchema) → Bool
  | [] => true
  | (_, j) :: rest => strippedMapped j && strippedList rest

end

/-- strippedList on an optional properties map (an absent map is
trivially stripped). -/
def strippedOptList : Option (List (String × JSchema)) → Bool
  | some l => strippedList l
  | none => true

/-- strippedMapped on an optional item schema. -/
def strippedOptSchema : Option JSchema → Bool
  | some j => strippedMapped j
  | none => true

/-- The property schema installed under key `k` in a translated result. -/
def jProp (j : JSchema) (k : String) : Option JSchema :=
  match j with
  | .objS _ _ _ _ _ _ _ _ (some props) _ => go props k
  | _ => none
where
  go : List (String × JSchema) → String → Option JSchema
  | [], _ => none
  | (k', v) :: rest, k => if k' = k then some v else go rest k

/-- True when a schema sitting in a translated result carries one of the
six presentation-only fields on its own top level; a verbatim-carried
reference is read back through the heap. -/
def presentHere (env : Env) : JSchema → Bool
  | .raw i => sNodeFlags (env i)
  | .objS _ _ e x ed dp ro wo _ _ => e || x || ed || dp || ro || wo
  | .boolS _ => false

/-- Written from the spec's words for C7, for comparison with the code:
the translated type is "a union of the original type(s) and null; if no
type was declared at all, the result's type becomes exactly null". -/
def specNullableUnion : STy → STy
  | .noneTy => .single "null"
  | .single t => .multiple [t, "null"]
  | .multiple ts => if ts.contains "null" then .multiple ts else .multiple (ts ++ ["null"])

/-- A primitive value of the target validation language. -/
inductive PrimValue where
  | numV (q : ℚ)
  | strV (s : String)
  | boolV (b : Bool)
  | nullV
deriving DecidableEq

/-- Modelled from the spec: acceptance of primitive values by the target
contract language used for runtime validation, which "does not
distinguish integer from float" — its generic numeric type "number"
accepts every numeric value, integral or not, and no string. -/
def primTypeAccepts : String → PrimValue → Bool
  | "number", .numV _ => true
  | "integer", .numV q => q.den == 1
  | "string", .strV _ => true
  | "boolean", .boolV _ => true
  | "null", .nullV => true
  | _, _ => false

/-! JSON values (tool-call arguments and response bodies) and the JS
    conversions the generated server applies to them. -/

inductive JsonValue where
  | jnull
  | jbool (b : Bool)
  | jnum (n : Int)
  | jstr (s : String)
  | jarr (xs : List JsonValue)
  | jobj (fields : List (String × JsonValue))

/-- JS truthiness of a JSON value (null, false, 0 and "" are falsy;
objects and arrays are always truthy). -/
def jsTruthy : JsonValue → Bool
  | .jnull => false
  | .jbool b => b
  | .jnum n => n != 0
  | .jstr s => s != ""
  | .jarr _ => true
  | .jobj _ => true

/-- True for values of JS typeof "object" that are not null
(objects and arrays). -/
def isJsObject : JsonValue → Bool
  | .jobj _ => true
  | .jarr _ => true
  | _ => false

mutual

/-- JS String(v) conversion: arrays join their rendered elements with
commas (null elements render empty), plain objects render as the fixed
object tag. -/
def jsToString : JsonValue → String
  | .jnull => "null"
  | .jbool true => "true"
  | .jbool false => "false"
  | .jnum n => intDecimal n
  | .jstr s => s
  | .jobj _ => "[object Object]"
  | .jarr xs => jsJoinArr xs

/-- Array.prototype.toString: elements joined with commas. -/
def jsJoinArr : List JsonValue → String
  | [] => ""
  | [x] => jsArrElem x
  | x :: y :: rest => jsArrElem x ++ "," ++ jsJoinArr (y :: rest)

/-- One array element under String(): null renders as the empty string. -/
def jsArrElem : JsonValue → String
  | .jnull => ""
  | .jbool b => jsToString (.jbool b)
  | .jnum n => jsToString (.jnum n)
  | .jstr s => jsToString (.jstr s)
  | .jobj fs => jsToString (.jobj fs)
  | .jarr xs => jsToString (.jarr xs)

end

/-- Escape of one character inside a JSON string literal (quote,
backslash and the common control characters; other characters pass
through). -/
def jsonEscapeChar (c : Char) : List Char :=
  if c = Char.ofNat 34 then [Char.ofNat 92, Char.ofNat 34]
  else if c = Char.ofNat 92 then [Char.ofNat 92, Char.ofNat 92]
  else if c = Char.ofNat 10 then [Char.ofNat 92, 'n']
  else if c = Char.ofNat 13 then [Char.ofNat 92, 'r']
  else if c = Char.ofNat 9 then [Char.ofNat 92, 't']
  else [c]

/-- JSON string literal rendering. -/
def jsonQuote (s : String) : String :=
  ⟨Char.ofNat 34 :: s.data.foldr (fun c acc => jsonEscapeChar c ++ acc) [Char.ofNat 34]⟩

mutual

/-- Compact JSON.stringify rendering of a JSON value (no added
whitespace, as the error formatter calls it). -/
def jsonStringify : JsonValue → String
  | .jnull => "null"
  | .jbool true => "true"
  | .jbool false => "false"
  | .jnum n => intDecimal n
  | .jstr s => jsonQuote s
  | .jarr xs => "[" ++ jsonStringifyArr xs ++ "]"
  | .jobj fs => "\x7b" ++ jsonStringifyObj fs ++ "\x7d"

/-- Comma-joined array elements. -/
def jsonStringifyArr : List JsonValue → String
  | [] => ""
  | [x] => jsonStringify x
  | x :: y :: rest => jsonStringify x ++ "," ++ jsonStringifyArr (y :: rest)

/-- Comma-joined object members. -/
def jsonStringifyObj : List (String × JsonValue) → String
  | [] => ""
  | [(k, v)] => jsonQuote k ++ ":" ++ jsonStringify v
  | (k, v) :: m :: rest => jsonQuote k ++ ":" ++ jsonStringify v ++ "," ++ jsonStringifyObj (m :: rest)

end

/-- Property lookup on a JS value: indexing a non-object yields
undefined, indexing an object finds the (first) matching key. -/
def lookupField : JsonValue → String → Option JsonValue
  | .jobj fields, k => go fields k
  | _, _ => none
where
  go : List (String × JsonValue) → String → Option JsonValue
  | [], _ => none
  | (k', v) :: rest, k => if k' = k then some v else go rest k

/-- JS object-property assignment on an association-list model: replaces
the value of an existing key in place, or appends a new key at the end. -/
def upsert {α : Type} : List (String × α) → String → α → List (String × α)
  | [], k, v => [(k, v)]
  | (k', v') :: rest, k, v =>
    if k' = k then (k, v) :: rest else (k', v') :: upsert rest k v

/-! String helpers used by the generated call handler. -/

/-- The left-brace character. -/
def lbrace : Char := Char.ofNat 123

/-- JS s.includes(c) for a single character. -/
def containsChar (s : String) (c : Char) : Bool := s.data.contains c

/-- JS s.substring(0, n): the first n characters (the whole string when
it is shorter). -/
def jsSubstring (s : String) (n : Nat) : String := ⟨s.data.take n⟩

/-- First-occurrence replacement on character lists (JS
String.prototype.replace with a string pattern replaces only the first
occurrence). -/
def replaceFirstAux (pat rep : List Char) : List Char → List Char
  | [] => []
  | c :: cs =>
    if pat.isPrefixOf (c :: cs) then rep ++ (c :: cs).drop pat.length
    else c :: replaceFirstAux pat rep cs

/-- JS s.replace(pat, rep) for a string pattern. -/
def replaceFirst (s pat rep : String) : String :=
  ⟨replaceFirstAux pat.data rep.data s.data⟩

/-- Unreserved characters of encodeURIComponent (kept verbatim). -/
def uriUnreserved (c : Char) : Bool :=
  c.isAlphanum || c = '-' || c = '_' || c = '.' || c = '!' || c = '~' ||
  c = '*' || c = Char.ofNat 39 || c = '(' || c = ')'

/-- UTF-8 bytes of one character. -/
def utf8Bytes (c : Char) : List Nat :=
  let n := c.toNat
  if n < 128 then [n]
  else if n < 2048 then [192 + n / 64, 128 + n % 64]
  else if n < 65536 then [224 + n / 4096, 128 + (n / 64) % 64, 128 + n % 64]
  else [240 + n / 262144, 128 + (n / 4096) % 64, 128 + (n / 64) % 64, 128 + n % 64]

/-- Uppercase hexadecimal digit. -/
def hexDigit (n : Nat) : Char :=
  if n < 10 then Char.ofNat (48 + n) else Char.ofNat (55 + n)

/-- Percent-encoding of one byte. -/
def pctByte (b : Nat) : List Char :=
  [Char.ofNat 37, hexDigit (b / 16), hexDigit (b % 16)]

/-- encodeURIComponent: unreserved characters kept, everything else
percent-encoded byte by byte. -/
def encodeURIComponent (s : String) : String :=
  ⟨s.data.foldr (fun c acc =>
    (if uriUnreserved c then [c] else (utf8Bytes c).flatMap pctByte) ++ acc) []⟩

/-! The API description data model (the slice of OpenAPI v3 the extractor
    reads) and the compiled tool definitions. -/

/-- One media-type object of a request body; its schema is a reference
into the schema heap. -/
structure MediaObj where
  schema : Option Nat := none
deriving DecidableEq

/-- A request-body declaration. -/
structure RequestBodyObj where
  required : Bool := false
  description : Option String := none
  content : List (String × MediaObj) := []
deriving DecidableEq

/-- A parameter declaration; `inLoc` is the parameter's `in` field
(path, query, header or cookie). -/
structure Param where
  name : String
  inLoc : String
  required : Bool := false
  schema : Option Nat := none
  description : Option String := none
deriving DecidableEq

/-- One operation of the path/method matrix. -/
structure Operation where
  operationId : Option String := none
  summary : Option String := none
  description : Option String := none
  parameters : List Param := []
  requestBody : Option RequestBodyObj := none
deriving DecidableEq

/-- A path item: the methods declared on one path template
(JS dictionary access pathItem[method]). -/
def PathItem : Type := List (String × Operation)

/-- Dictionary lookup of a method on a path item. -/
def lookupOp : PathItem → String → Option Operation
  | [], _ => none
  | (m', op) :: rest, m => if m' = m then some op else lookupOp rest m

/-- A declared server. -/
structure Server where
  url : String
deriving DecidableEq

/-- The API description: declared servers and the path/method matrix in
declaration order. -/
structure ApiDoc where
  servers : Option (List Server) := none
  paths : Option (List (String × Option PathItem)) := none

/-- The assembled input contract: always an object schema; the required
list is spread into the object only when nonempty (`none` models the
absent key). -/
structure InputSchema where
  properties : List (String × JSchema)
  required : Option (List String)

/-- A tool's input schema as typed in the source:
JSONSchema7 or a boolean schema. -/
inductive SchemaOrBool where
  | boolI (b : Bool)
  | objI (s : InputSchema)

/-- The required names of an input schema (empty for the absent key and
for boolean schemas). -/
def inputRequired : SchemaOrBool → List String
  | .objI s => match s.required with | some l => l | none => []
  | .boolI _ => []

/-- The property keys of an input schema. -/
def inputPropKeys : SchemaOrBool → List String
  | .objI s => s.properties.map Prod.fst
  | .boolI _ => []

/-- One compiled tool definition (McpToolDefinition). -/
structure Tool where
  name : String
  description : String
  inputSchema : SchemaOrBool
  operationId : String
  method : String
  path : String
  parameters : List Param
  requestBody : Option RequestBodyObj

/-- JS a || b for optional strings (an empty string is falsy). -/
def jsOrStr : Option String → Option String → Option String
  | some a, b => if a = "" then b else some a
  | none, b => b

/-- JS a || d with a string default. -/
def jsOrD : Option String → String → String
  | some a, d => if a = "" then d else a
  | none, d => d

/-- Description override of a parameter's translated schema
(param.description || paramSchema.description, line 586). -/
def setParamDescription (j : JSchema) (d : Option String) : JSchema :=
  match j with
  | .objS t descr e x ed dp ro wo props its =>
    .objS t (jsOrStr d descr) e x ed dp ro wo props its
  | other => other

/-- Description chain of the translated body schema (line 596):
opRequestBody.description || bodySchema.description ||
the fixed fallback text. -/
def setBodyDescription (j : JSchema) (d : Option String) : JSchema :=
  match j with
  | .objS t descr e x ed dp ro wo props its =>
    .objS t (jsOrStr d (jsOrStr descr (some "The JSON request body."))) e x ed dp ro wo props its
  | other => other

/-- Dictionary lookup of a content type on a request body's content map. -/
def lookupContent : List (String × MediaObj) → String → Option MediaObj
  | [], _ => none
  | (k, m) :: rest, k' => if k = k' then some m else lookupContent rest k'

/-- The parameter loop of generateInputSchema (lines 583-589): parameters
with a falsy name or no schema are skipped; each remaining parameter's
schema is translated and installed under the parameter's name, and the
name is pushed on the required list iff the parameter is required. -/
def assembleParams (env : Env) (fuel : Nat) :
    List Param → List (String × JSchema) → List String →
    Option (List (String × JSchema) × List String)
  | [], props, req => some (props, req)
  | p :: ps, props, req =>
    if p.name = "" then assembleParams env fuel ps props req
    else
      match p.schema with
      | none => assembleParams env fuel ps props req
      | some sid =>
        match mapOpenApiSchemaToJsonSchema env fuel sid with
        | none => none
        | some js =>
          assembleParams env fuel ps (upsert props p.name (setParamDescription js p.description))
            (if p.required then req ++ [p.name] else req)

/-- Assembles the final object schema: the required key is present only
when the list is nonempty (line 608). -/
def mkInput (props : List (String × JSchema)) (req : List String) : SchemaOrBool :=
  .objI ⟨props, if req.length > 0 then some req else none⟩

/-- Pushes the reserved requestBody name iff the body is required. -/
def pushReq (req : List String) (b : Bool) : List String :=
  if b then req ++ ["requestBody"] else req

/-- The schema of the JSON-typed representation of a request body
(jsonContent?.schema of line 593-594), when both exist. -/
def bodyJsonSchemaId (rb : RequestBodyObj) : Option Nat :=
  match lookupContent rb.content "application/json" with
  | some m => m.schema
  | none => none

/-- The result record of generateInputSchema. -/
structure GenResult where
  inputSchema : SchemaOrBool
  parameters : List Param
  requestBody : Option RequestBodyObj

/-- generateInputSchema (lines 577-610): merges the parameter list and
the request-body declaration into one object schema.  A JSON-typed body
representation with a schema is translated under the reserved name
requestBody; otherwise the first declared content type yields a
string-typed placeholder under the same name; the reserved name is
required iff the body is required.  A `none` result propagates a
translation that did not return (divergence on a cyclic schema). -/
def generateInputSchema (env : Env) (fuel : Nat) (op : Operation) : Option GenResult :=
  match assembleParams env fuel op.parameters [] [] with
  | none => none
  | some (props0, req0) =>
    match op.requestBody with
    | none => some ⟨mkInput props0 req0, op.parameters, none⟩
    | some rb =>
      match bodyJsonSchemaId rb with
      | some sid =>
        match mapOpenApiSchemaToJsonSchema env fuel sid with
        | none => none
        | some bs =>
          some ⟨mkInput (upsert props0 "requestBody" (setBodyDescription bs rb.description))
              (pushReq req0 rb.required), op.parameters, some rb⟩
      | none =>
        match rb.content.head? with
        | some (ct, _) =>
          let placeholder : JSchema :=
            .objS (.single "string")
              (some (jsOrD rb.description ("Request body (content type: " ++ ct ++ ")")))
              false false false false false false none none
          some ⟨mkInput (upsert props0 "requestBody" placeholder) (pushReq req0 rb.required),
            op.parameters, some rb⟩
        | none => some ⟨mkInput props0 req0, op.parameters, some rb⟩

/-! Tool-name derivation and collision resolution (extractToolsFromApi,
    lines 550-575). -/

/-- The candidate name with a numeric suffix: `base_k` in decimal. -/
def mkCand (base : String) (k : Nat) : String := base ++ "_" ++ natDecimal k

/-- The collision loop (line 567): starting from counter c, the first
candidate base_c, base_(c+1), ... not already used.  The loop of the
source terminates because candidate names are pairwise distinct and the
used set is finite; `fuel` makes the embedding total and is always
called with enough fuel for the fallback case to be unreachable. -/
def searchFree (used : List String) (base : String) : Nat → Nat → String
  | c, 0 => mkCand base c
  | c, fuel + 1 =>
    if used.contains (mkCand base c) then searchFree used base (c + 1) fuel
    else mkCand base c

/-- Name collision resolution: the base name if free, else the first free
suffixed candidate counting upward from 1. -/
def resolveName (used : List String) (base : String) : String :=
  if used.contains base then searchFree used base 1 (used.length + 1) else base

/-- The fixed canonical method order (Object.values(OpenAPIV3.HttpMethods)). -/
def httpMethods : List String :=
  ["get", "put", "post", "delete", "options", "head", "patch", "trace"]

/-- Description derivation (line 569): description, else summary, else
the synthesized fallback naming method and path. -/
def descrOf (op : Operation) (m path : String) : String :=
  jsOrD op.description (jsOrD op.summary ("Executes " ++ m.toUpper ++ " " ++ path))

/-- Base-name derivation (line 560): the declared operationId if truthy,
else the synthesized id; `genOpId` stands for generateOperationId, which
is imported from utils and not among the sources, so the extraction is
parametric in it. -/
def baseNameOf (genOpId : String → String → String) (op : Operation) (m path : String) : String :=
  match op.operationId with
  | some s => if s = "" then genOpId m path else s
  | none => genOpId m path

/-- The inner method loop of extractToolsFromApi: for each method in
canonical order that has an operation, derive the base name (skipping the
operation when it is empty), resolve collisions against the used-name
set, assemble the input schema and append the tool. -/
def extractMethods (env : Env) (fuel : Nat) (genOpId : String → String → String)
    (path : String) (item : PathItem) :
    List String → List String → List Tool → Option (List String × List Tool)
  | [], used, acc => some (used, acc)
  | m :: ms, used, acc =>
    match lookupOp item m with
    | none => extractMethods env fuel genOpId path item ms used acc
    | some op =>
      let baseName := baseNameOf genOpId op m path
      if baseName = "" then extractMethods env fuel genOpId path item ms used acc
      else
        let finalName := resolveName used baseName
        match generateInputSchema env fuel op with
        | none => none
        | some res =>
          extractMethods env fuel genOpId path item ms (finalName :: used)
            (acc ++ [⟨finalName, descrOf op m path, res.inputSchema, baseName, m, path,
              res.parameters, res.requestBody⟩])

/-- The outer path loop of extractToolsFromApi: paths in declaration
order, null path items skipped. -/
def extractPaths (env : Env) (fuel : Nat) (genOpId : String → String → String) :
    List (String × Option PathItem) → List String → List Tool →
    Option (List String × List Tool)
  | [], used, acc => some (used, acc)
  | (_, none) :: rest, used, acc => extractPaths env fuel genOpId rest used acc
  | (p, some item) :: rest, used, acc =>
    match extractMethods env fuel genOpId p item httpMethods used acc with
    | none => none
    | some (used', acc') => extractPaths env fuel genOpId rest used' acc'

/-- extractToolsFromApi (lines 550-575). -/
def extractToolsFromApi (env : Env) (fuel : Nat) (genOpId : String → String → String)
    (api : ApiDoc) : Option (List Tool) :=
  match api.paths with
  | none => some []
  | some ps => (extractPaths env fuel genOpId ps [] []).map Prod.snd

/-! Base-URL resolution (determineBaseUrl, lines 539-548). -/

/-- The regex replace of a single trailing slash: url.replace of the
anchored pattern removes the last character exactly when it is a slash. -/
def stripTrailingSlash (s : String) : String :=
  if s.data.getLast? = some '/' then ⟨s.data.dropLast⟩ else s

/-- The declared-servers part of determineBaseUrl: a single server with a
truthy url, or the first of several servers (with a warning), else null. -/
def serversBaseUrl (api : ApiDoc) : Option String :=
  match api.servers with
  | some [s] => if s.url = "" then none else some (stripTrailingSlash s.url)
  | some (s :: _ :: _) => some (stripTrailingSlash s.url)
  | _ => none

/-- determineBaseUrl: a truthy command-line override wins, then the
declared servers, else null. -/
def determineBaseUrl (api : ApiDoc) (cmdLineBaseUrl : Option String) : Option String :=
  match cmdLineBaseUrl with
  | some u => if u = "" then serversBaseUrl api else some (stripTrailingSlash u)
  | none => serversBaseUrl api

/-! The generated call handler (generateCallTool, lines 657-797):
    argument validation, path substitution, request assembly.  The zod
    library and the jsonSchemaToZod-plus-eval step are external
    collaborators, modelled at their interface: a conversion outcome
    `conv` (none when conversion or evaluation of the generated validator
    fails, or when it does not yield a schema with a parse function) and
    the semantics of z.object({}).passthrough(), which accepts exactly
    object-shaped values and returns them unchanged. -/

/-- A runtime validation schema: the open passthrough fallback or an
evaluated converted validator. -/
inductive ZodModel where
  | passthrough
  | compiled (parse : JsonValue → Except String JsonValue)

/-- getZodSchemaFromJsonSchema (lines 380-409): a non-object input schema
falls back to the passthrough schema immediately; otherwise the converted
validator is used when conversion succeeded, and the passthrough schema
when it failed. -/
def getZodSchemaFromJsonSchema (schema : SchemaOrBool)
    (conv : Option (JsonValue → Except String JsonValue)) : ZodModel :=
  match schema with
  | .boolI _ => .passthrough
  | .objI _ =>
    match conv with
    | some f => .compiled f
    | none => .passthrough

/-- Parse against a runtime validation schema: the passthrough schema
accepts exactly object-shaped values and returns them unchanged. -/
def zodParse : ZodModel → JsonValue → Except String JsonValue
  | .passthrough, .jobj fs => .ok (.jobj fs)
  | .passthrough, _ => .error "Expected object, received non-object"
  | .compiled f, v => f v

/-- The argument-validation block of the generated handler (lines
668-687): non-object raw arguments are coerced to an empty object, then
parsed against the schema produced by getZodSchemaFromJsonSchema. -/
def validateArgs (schema : SchemaOrBool)
    (conv : Option (JsonValue → Except String JsonValue))
    (toolArgs : Option JsonValue) : Except String JsonValue :=
  let zodSchema := getZodSchemaFromJsonSchema schema conv
  let argsToParse := match toolArgs with
    | some v => if isJsObject v then v else .jobj []
    | none => .jobj []
  zodParse zodSchema argsToParse

/-- The assembled HTTP request configuration handed to the HTTP client. -/
structure HttpRequest where
  method : String
  url : String
  queryParams : List (String × JsonValue)
  headers : List (String × String)
  data : Option JsonValue

/-- The outcome of one tool call up to the HTTP boundary: a validation
failure returned from the validation block, an error thrown before the
HTTP call and rendered by the outer catch, or an executed HTTP request. -/
inductive CallResult where
  | validationError (msg : String)
  | errorResult (msg : String)
  | executed (req : HttpRequest)

/-- The names of the tool's path-location parameters, in declaration
order. -/
def pathParamNames (ps : List Param) : List String :=
  (ps.filter (fun p => p.inLoc = "path")).map (fun p => p.name)

/-- The names of the tool's query-location parameters. -/
def queryParamNames (ps : List Param) : List String :=
  (ps.filter (fun p => p.inLoc = "query")).map (fun p => p.name)

/-- The names of the tool's header-location parameters. -/
def headerParamNames (ps : List Param) : List String :=
  (ps.filter (fun p => p.inLoc = "header")).map (fun p => p.name)

/-- Path substitution (lines 690-694): for each path parameter present
and non-null in the validated arguments, the first occurrence of its
brace-delimited placeholder is replaced by the percent-encoded string
form of its value. -/
def substPathParams (rawPath : String) (names : List String) (va : JsonValue) : String :=
  names.foldl (fun urlPath n =>
    match lookupField va n with
    | some .jnull => urlPath
    | some v => replaceFirst urlPath ("\x7b" ++ n ++ "\x7d") (encodeURIComponent (jsToString v))
    | none => urlPath) rawPath

/-- Query-map assembly (lines 699-703): present, non-null query
parameters only. -/
def buildQuery (names : List String) (va : JsonValue) : List (String × JsonValue) :=
  names.foldl (fun acc n =>
    match lookupField va n with
    | some .jnull => acc
    | some v => upsert acc n v
    | none => acc) []

/-- The content type chosen at generation time (lines 726-731):
application/json when declared, else the first declared content type,
else the JSON default. -/
def contentTypeFor (rb : RequestBodyObj) : String :=
  match lookupContent rb.content "application/json" with
  | some _ => "application/json"
  | none =>
    match rb.content.head? with
    | some (t, _) => t
    | none => "application/json"

/-- Header-map assembly (lines 706-709 and 733-734): the Accept default,
present non-null header parameters under lower-cased names, and the
content-type header when the tool declares a body and a requestBody
argument is present (null included). -/
def buildHeaders (tool : Tool) (va : JsonValue) : List (String × String) :=
  let hs1 := (headerParamNames tool.parameters).foldl (fun acc n =>
    match lookupField va n with
    | some .jnull => acc
    | some v => upsert acc n.toLower (jsToString v)
    | none => acc) [("Accept", "application/json")]
  match tool.requestBody with
  | some rb =>
    match lookupField va "requestBody" with
    | some _ => upsert hs1 "content-type" (contentTypeFor rb)
    | none => hs1
  | none => hs1

/-- Request assembly after validation (lines 690-767): path substitution,
the dispatch-consistency check on a remaining brace, base-URL
concatenation, query, headers and body, ending at the HTTP call. -/
def buildRequest (tool : Tool) (baseUrl : String) (va : JsonValue) :
    Except String HttpRequest :=
  let urlPath := substPathParams tool.path (pathParamNames tool.parameters) va
  if containsChar urlPath lbrace then
    .error ("Validation passed but failed to resolve path parameters in URL: " ++ urlPath ++
      ". Check schema/validation logic.")
  else
    let requestUrl := if baseUrl = "" then urlPath else baseUrl ++ urlPath
    let bodyData := match tool.requestBody with
      | some _ => lookupField va "requestBody"
      | none => none
    .ok ⟨tool.method.toUpper, requestUrl, buildQuery (queryParamNames tool.parameters) va,
      buildHeaders tool va, bodyData⟩

/-- One generated tool handler up to the HTTP boundary: the validation
block, then request assembly; an error thrown during assembly is caught
by the handler's outer catch and returned as an error outcome distinct
from the validation outcome. -/
def handleToolCall (tool : Tool) (baseUrl : String)
    (conv : Option (JsonValue → Except String JsonValue))
    (toolArgs : Option JsonValue) : CallResult :=
  match validateArgs tool.inputSchema conv toolArgs with
  | .error m => .validationError ("Invalid arguments for tool: " ++ m)
  | .ok va =>
    match buildRequest tool baseUrl va with
    | .error m => .errorResult m
    | .ok req => .executed req

/-! Error normalization (formatApiError, lines 344-369). -/

/-- The data carried by an error response: a string body, some other
JSON body, or no body. -/
inductive RespData where
  | strD (s : String)
  | otherD (v : JsonValue)
  | noneD

/-- An error response from the remote server. -/
structure AxResponse where
  status : Nat
  statusText : String
  data : RespData

/-- The failure shape of the HTTP client: a response with an error
status, or a request that got no response, or a setup failure. -/
structure AxError where
  response : Option AxResponse
  requestSent : Bool
  code : Option String
  message : String

/-- formatApiError: an error-status response carries status, status text
(with a fallback for a falsy one) and a 200-character-truncated rendering
of the body with an ellipsis marker when longer; a response-less request
carries the network-error indicator and the low-level code when truthy;
a setup failure carries the construction error's message. -/
def formatApiError (e : AxError) : String :=
  match e.response with
  | some r =>
    let base := "API Error: Status " ++ natDecimal r.status ++ " (" ++
      (if r.statusText = "" then "Status text not available" else r.statusText) ++ "). "
    match r.data with
    | .strD s =>
      base ++ "Response: " ++ jsSubstring s 200 ++ (if s.length > 200 then "..." else "")
    | .otherD v =>
      if jsTruthy v then
        base ++ "Response: " ++ jsSubstring (jsonStringify v) 200 ++
          (if (jsonStringify v).length > 200 then "..." else "")
      else base ++ "No response body received."
    | .noneD => base ++ "No response body received."
  | none =>
    if e.requestSent then
      "API Network Error: No response received from the server. Check network connectivity or server availability." ++
      (match e.code with
       | some c => if c = "" then "" else " (Code: " ++ c ++ ")"
       | none => "")
    else "API Request Setup Error: " ++ e.message

/-- The rendering of a response body that the error formatter truncates:
a string body itself, a truthy non-string body's JSON rendering. -/
def renderedBody : RespData → Option String
  | .strD s => some s
  | .otherD v => if jsTruthy v then some (jsonStringify v) else none
  | .noneD => none

/-! Concrete inputs used by witnesses and counterexamples. -/

/-- Heap with a depth-1 cycle: node 0 is an object schema whose property
self is node 0 itself. -/
def envCycle1 : Env := fun _ =>
  { ty := .single "object", properties := some [("self", .nodeRef 0)] }

/-- Heap with a depth-2 cycle: node 0's property a is node 1, whose
property b is node 0 again. -/
def envCycle2 : Env := fun i =>
  if i = 0 then { ty := .single "object", properties := some [("a", .nodeRef 1)] }
  else { ty := .single "object", properties := some [("b", .nodeRef 0)] }

/-- Heap for the C4 counterexample: node 0 is a nullable object schema
whose property a is node 1, a string schema carrying an example field. -/
def envC4 : Env := fun i =>
  if i = 0 then { ty := .single "object", nullable := true, properties := some [("a", .nodeRef 1)] }
  else { ty := .single "string", hasExample := true }

/-- Heap like envC4 but with node 0 not nullable, so the translator does
recurse into the property and strips its example field. -/
def envStrip : Env := fun i =>
  if i = 0 then { ty := .single "object", properties := some [("a", .nodeRef 1)] }
  else { ty := .single "string", hasExample := true }

/-- Heap whose node 0 declares type integer and nullable. -/
def envC7 : Env := fun _ => { ty := .single "integer", nullable := true }

/-- Heap whose node 0 declares type integer (not nullable). -/
def envC6 : Env := fun _ => { ty := .single "integer" }

/-- A tool with one required path parameter, used by the C2 witness. -/
def toolC2 : Tool where
  name := "getUserById"
  description := "Gets a user"
  inputSchema := .objI ⟨[("id", .objS (.single "string") none
    false false false false false false none none)], some ["id"]⟩
  operationId := "getUserById"
  method := "get"
  path := "/users/\x7bid\x7d"
  parameters := [{ name := "id", inLoc := "path", required := true, schema := some 0 }]
  requestBody := none

/-- An operation with a declared identifier and no parameters or body. -/
def opC3 : Operation := { operationId := some "getA", summary := some "Gets A" }

/-- The tools extracted from apiC3: the second operation's colliding
base name resolves to the first free suffix. -/
def toolsC3 : List Tool :=
  [⟨"getA", "Gets A", .objI ⟨[], none⟩, "getA", "get", "/a", [], none⟩,
   ⟨"getA_1", "Gets A", .objI ⟨[], none⟩, "getA", "get", "/b", [], none⟩]

/-- An API whose two operations derive the same base name. -/
def apiC3 : ApiDoc :=
  { paths := some [("/a", some [("get", opC3)]), ("/b", some [("get", opC3)])] }

/-- A synthesized-identifier function for witnesses. -/
def genOpId0 : String → String → String := fun m p => m ++ p

/-- An operation with one required path parameter and a required JSON
body, used by the C5 witness. -/
def opC5 : Operation where
  parameters := [{ name := "id", inLoc := "path", required := true, schema := some 0 }]
  requestBody := some { required := true, content := [("application/json", { schema := some 0 })] }

/-- The translated number schema, as produced for envC6's nodes. -/
def jsNumber : JSchema :=
  .objS (.single "number") none false false false false false false none none

/-- The expected assembler result for opC5 over envC6. -/
def resC5 : GenResult :=
  ⟨.objI ⟨[("id", jsNumber),
      ("requestBody", .objS (.single "number") (some "The JSON request body.")
        false false false false false false none none)],
    some ["id", "requestBody"]⟩,
  opC5.parameters, opC5.requestBody⟩

/-- A 250-character response body. -/
def longBody : String := ⟨List.replicate 250 'a'⟩

/-- A 404 error with a long string body, used by the C8 witness. -/
def axErrC8 : AxError where
  response := some { status := 404, statusText := "Not Found", data := .strD longBody }
  requestSent := true
  code := none
  message := "Request failed with status code 404"

/-- An API declaring a single server whose URL has a trailing slash. -/
def apiOneServer : ApiDoc := { servers := some [⟨"https://api.example.com/"⟩] }

/-- An API declaring two servers. -/
def apiTwoServers : ApiDoc :=
  { servers := some [⟨"https://one.example.com/"⟩, ⟨"https://two.example.com"⟩] }

/-- An API declaring no servers. -/
def apiNoServer : ApiDoc := {}

/-- The non-integer rational one half, with explicit fields so its
denominator evaluates by rfl. -/
def halfRational : ℚ := ⟨1, 2, by norm_num, by simp⟩

/-! Helper lemmas. -/

theorem string_ext {a b : String} (h : a.data = b.data) : a = b := by
  cases a; cases b; exact congrArg String.mk h

theorem contains_iff_mem (l : List String) (s : String) : l.contains s = true ↔ s ∈ l := by
  rw [List.contains_eq_any_beq]; simp

theorem jsSubstring_length_le (s : String) (n : Nat) : (jsSubstring s n).length ≤ n := by
  show (s.data.take n).length ≤ n
  simp

theorem stripTrailingSlash_of_slash (u : String) (h : u.data.getLast? = some '/') :
    stripTrailingSlash u ++ "/" = u := by
  unfold stripTrailingSlash
  rw [if_pos h]
  apply string_ext
  rw [String.data_append]
  show u.data.dropLast ++ ['/'] = u.data
  have hne : u.data ≠ [] := by
    intro hnil
    rw [hnil] at h
    simp at h
  have hl : u.data.getLast hne = '/' := by
    have h2 := List.getLast?_eq_getLast u.data hne
    rw [h2] at h
    exact (Option.some.injEq _ _).mp h
  rw [← hl]
  exact List.dropLast_append_getLast hne

theorem stripTrailingSlash_of_noslash (u : String) (h : ¬ u.data.getLast? = some '/') :
    stripTrailingSlash u = u := by
  unfold stripTrailingSlash
  rw [if_neg h]

/-! C10 -/

/-- C10: determineBaseUrl prefers a truthy explicit override, then a
single declared server with a truthy URL, then the first of several
declared servers, and each chosen URL has exactly one trailing slash
removed (appending the slash back restores the original, and a URL
without a trailing slash is unchanged); with no override and no declared
server the result is null. -/
theorem determineBaseUrl_resolution :
    (∀ api u, u ≠ "" → determineBaseUrl api (some u) = some (stripTrailingSlash u))
    ∧ (∀ api s, api.servers = some [s] → s.url ≠ "" →
        determineBaseUrl api none = some (stripTrailingSlash s.url))
    ∧ (∀ api s s2 rest, api.servers = some (s :: s2 :: rest) →
        determineBaseUrl api none = some (stripTrailingSlash s.url))
    ∧ (∀ api, (api.servers = none ∨ api.servers = some []) →
        determineBaseUrl api none = none)
    ∧ (∀ u, u.data.getLast? = some '/' → stripTrailingSlash u ++ "/" = u)
    ∧ (∀ u, ¬ u.data.getLast? = some '/' → stripTrailingSlash u = u) := by
  refine ⟨?_, ?_, ?_, ?_, stripTrailingSlash_of_slash, stripTrailingSlash_of_noslash⟩
  · intro api u hu
    simp [determineBaseUrl, hu]
  · intro api s hs hu
    simp [determineBaseUrl, serversBaseUrl, hs, hu]
  · intro api s s2 rest hs
    simp [determineBaseUrl, serversBaseUrl, hs]
  · intro api hs
    rcases hs with h | h <;> simp [determineBaseUrl, serversBaseUrl, h]

/-- Witness for C10 at concrete inputs. -/
theorem determineBaseUrl_resolution_witness :
    determineBaseUrl apiNoServer (some "https://x.test/") =
      some (stripTrailingSlash "https://x.test/")
    ∧ determineBaseUrl apiOneServer none = some (stripTrailingSlash "https://api.example.com/")
    ∧ determineBaseUrl apiTwoServers none = some (stripTrailingSlash "https://one.example.com/")
    ∧ determineBaseUrl apiNoServer none = none
    ∧ stripTrailingSlash "https://x.test/" ++ "/" = "https://x.test/" := by
  refine ⟨?_, ?_, ?_, ?_, ?_⟩
  · exact determineBaseUrl_resolution.1 apiNoServer "https://x.test/" (by decide)
  · exact determineBaseUrl_resolution.2.1 apiOneServer ⟨"https://api.example.com/"⟩ rfl (by decide)
  · exact determineBaseUrl_resolution.2.2.1 apiTwoServers ⟨"https://one.example.com/"⟩
      ⟨"https://two.example.com"⟩ [] rfl
  · exact determineBaseUrl_resolution.2.2.2.1 apiNoServer (Or.inl rfl)
  · exact determineBaseUrl_resolution.2.2.2.2.1 "https://x.test/" (by decide)

/-! C8 -/

/-- C8: for every error-status response with a body, the normalized
message carries the status and status text together with the body
rendering truncated to its first 200 characters, the ellipsis marker is
appended exactly when the full rendering exceeds 200 characters, and the
truncated part never exceeds 200 characters. -/
theorem formatApiError_truncation (status : Nat) (stext : String) (d : RespData)
    (req : Bool) (code : Option String) (msg : String) (r : String)
    (h : renderedBody d = some r) :
    formatApiError ⟨some ⟨status, stext, d⟩, req, code, msg⟩ =
      ("API Error: Status " ++ natDecimal status ++ " (" ++
        (if stext = "" then "Status text not available" else stext) ++ "). ") ++
        "Response: " ++ jsSubstring r 200 ++ (if r.length > 200 then "..." else "")
    ∧ (jsSubstring r 200).length ≤ 200 := by
  refine ⟨?_, jsSubstring_length_le r 200⟩
  cases d with
  | strD s =>
    simp only [renderedBody, Option.some.injEq] at h
    subst h
    rfl
  | otherD v =>
    by_cases hv : jsTruthy v = true
    · simp only [renderedBody, hv, if_true, Option.some.injEq] at h
      subst h
      simp [formatApiError, hv]
    · exfalso
      simp only [renderedBody] at h
      rw [if_neg hv] at h
      exact Option.noConfusion h
  | noneD => simp [renderedBody] at h

set_option maxRecDepth 4000 in
/-- Witness for C8: a 404 with a 250-character string body. -/
theorem formatApiError_truncation_witness :
    formatApiError axErrC8 =
      ("API Error: Status " ++ natDecimal 404 ++ " (" ++
        (if "Not Found" = "" then "Status text not available" else "Not Found") ++ "). ") ++
        "Response: " ++ jsSubstring longBody 200 ++ (if longBody.length > 200 then "..." else "")
    ∧ (jsSubstring longBody 200).length ≤ 200
    ∧ 200 < longBody.length := by
  refine ⟨?_, ?_, by decide⟩
  · exact (formatApiError_truncation 404 "Not Found" (.strD longBody) true none
      "Request failed with status code 404" longBody rfl).1
  · exact (formatApiError_truncation 404 "Not Found" (.strD longBody) true none
      "Request failed with status code 404" longBody rfl).2

/-! C9 -/

/-- C9: when the compiled input schema is not an object value, or the
conversion/evaluation of the generated validator fails, the validator
falls back to the open passthrough schema, any object-shaped argument
value is accepted unchanged, and the call never ends in a validation
failure. -/
theorem validator_fallback_passthrough (schema : SchemaOrBool)
    (conv : Option (JsonValue → Except String JsonValue))
    (h : (∃ b, schema = .boolI b) ∨ conv = none) :
    getZodSchemaFromJsonSchema schema conv = .passthrough
    ∧ (∀ fields, validateArgs schema conv (some (.jobj fields)) = .ok (.jobj fields))
    ∧ (∀ tool baseUrl fields, tool.inputSchema = schema →
        ∀ m, handleToolCall tool baseUrl conv (some (JsonValue.jobj fields)) ≠
          .validationError m) := by
  have hpt : getZodSchemaFromJsonSchema schema conv = .passthrough := by
    rcases h with ⟨b, rfl⟩ | rfl
    · rfl
    · cases schema <;> rfl
  have hval : ∀ fields, validateArgs schema conv (some (.jobj fields)) = .ok (.jobj fields) := by
    intro fields
    simp [validateArgs, hpt, isJsObject, zodParse]
  refine ⟨hpt, hval, ?_⟩
  intro tool baseUrl fields hsch m
  rw [handleToolCall, hsch, hval fields]
  cases hb : buildRequest tool baseUrl (.jobj fields) <;> simp [hb]

/-- Witness for C9: a conversion failure on an object schema falls back
to passthrough and the call proceeds past validation. -/
theorem validator_fallback_passthrough_witness :
    getZodSchemaFromJsonSchema toolC2.inputSchema none = .passthrough
    ∧ validateArgs toolC2.inputSchema none (some (.jobj [("x", .jnum 1)])) =
        .ok (.jobj [("x", .jnum 1)])
    ∧ handleToolCall toolC2 "" none (some (.jobj [("x", .jnum 1)])) ≠
        .validationError "Invalid arguments for tool: Expected object, received non-object" := by
  obtain ⟨h1, h2, h3⟩ := validator_fallback_passthrough toolC2.inputSchema none (Or.inr rfl)
  exact ⟨h1, h2 [("x", .jnum 1)], h3 toolC2 "" [("x", .jnum 1)] rfl _⟩

/-! C2 -/

/-- C2: when validation has passed but path substitution leaves a brace
in the URL, the call ends in the dispatch-consistency error thrown
before the HTTP call: the outcome is the error result carrying the
unresolved URL, never an executed request and never a validation
failure. -/
theorem unresolved_placeholder_dispatch_error (tool : Tool) (baseUrl : String)
    (conv : Option (JsonValue → Except String JsonValue)) (toolArgs : Option JsonValue)
    (va : JsonValue)
    (hv : validateArgs tool.inputSchema conv toolArgs = .ok va)
    (hbrace : containsChar (substPathParams tool.path (pathParamNames tool.parameters) va)
      lbrace = true) :
    handleToolCall tool baseUrl conv toolArgs =
      .errorResult ("Validation passed but failed to resolve path parameters in URL: " ++
        substPathParams tool.path (pathParamNames tool.parameters) va ++
        ". Check schema/validation logic.")
    ∧ (∀ req, handleToolCall tool baseUrl conv toolArgs ≠ .executed req)
    ∧ (∀ m, handleToolCall tool baseUrl conv toolArgs ≠ .validationError m) := by
  have hb : buildRequest tool baseUrl va =
      .error ("Validation passed but failed to resolve path parameters in URL: " ++
        substPathParams tool.path (pathParamNames tool.parameters) va ++
        ". Check schema/validation logic.") := by
    simp [buildRequest, hbrace]
  have hr : handleToolCall tool baseUrl conv toolArgs =
      .errorResult ("Validation passed but failed to resolve path parameters in URL: " ++
        substPathParams tool.path (pathParamNames tool.parameters) va ++
        ". Check schema/validation logic.") := by
    simp [handleToolCall, hv, hb]
  refine ⟨hr, ?_, ?_⟩
  · intro req
    rw [hr]
    simp
  · intro m
    rw [hr]
    simp

/-- Witness for C2: a call that passes validation through the
passthrough fallback with empty arguments leaves the id placeholder
unresolved and ends in the dispatch error. -/
theorem unresolved_placeholder_dispatch_error_witness :
    handleToolCall toolC2 "https://api.example.com" none (some (.jobj [])) =
      .errorResult ("Validation passed but failed to resolve path parameters in URL: " ++
        substPathParams toolC2.path (pathParamNames toolC2.parameters) (.jobj []) ++
        ". Check schema/validation logic.")
    ∧ handleToolCall toolC2 "https://api.example.com" none (some (.jobj [])) ≠
        .executed ⟨"GET", "https://api.example.com/users/\x7bid\x7d", [], [], none⟩
    ∧ handleToolCall toolC2 "https://api.example.com" none (some (.jobj [])) ≠
        .validationError "Invalid arguments for tool: Expected object, received non-object" := by
  obtain ⟨h1, h2, h3⟩ := unresolved_placeholder_dispatch_error toolC2 "https://api.example.com"
    none (some (.jobj [])) (.jobj []) rfl (by decide)
  exact ⟨h1, h2 _, h3 _⟩

/-! The type field of a translated node. -/

/-- The type of any successfully translated non-reference node is the
declared type after the integer coercion, with the nullable adjustment
applied when the node is flagged nullable. -/
theorem jType_of_map (env : Env) (fuel id : Nat) (j : JSchema)
    (h : mapOpenApiSchemaToJsonSchema env fuel id = some j)
    (href : (env id).ref = none) :
    jType j = (if (env id).nullable then nullableAdjust (coerceType (env id).ty)
      else coerceType (env id).ty) := by
  cases fuel with
  | zero => exact Option.noConfusion h
  | succ f =>
    simp only [mapOpenApiSchemaToJsonSchema, href] at h
    split at h
    · exact Option.noConfusion h
    · split at h
      · exact Option.noConfusion h
      · cases h
        rfl

/-! C6 -/

/-- C6: a node declaring type integer (and not nullable) translates to
type number, any other declared primitive type passes through unchanged,
and in the target validation language the number type accepts non-integer
numeric values and rejects strings (while integer would reject
non-integer numerics). -/
theorem integer_maps_to_number (env : Env) (fuel id : Nat) (j : JSchema) (t : String)
    (h : mapOpenApiSchemaToJsonSchema env fuel id = some j)
    (href : (env id).ref = none) (hn : (env id).nullable = false)
    (ht : (env id).ty = .single t) :
    jType j = .single (if t = "integer" then "number" else t)
    ∧ (∀ q : ℚ, primTypeAccepts "number" (.numV q) = true)
    ∧ (∀ s, primTypeAccepts "number" (.strV s) = false)
    ∧ (∀ q : ℚ, q.den ≠ 1 → primTypeAccepts "integer" (.numV q) = false) := by
  refine ⟨?_, fun q => rfl, fun s => rfl, ?_⟩
  · rw [jType_of_map env fuel id j h href, hn, ht]
    by_cases hti : t = "integer"
    · subst hti
      simp [coerceType]
    · simp [coerceType, hti]
  · intro q hq
    simp [primTypeAccepts, hq]

/-- Witness for C6: a declared integer node translates to number, and
the target number type accepts the non-integer one half while the
integer type would not. -/
theorem integer_maps_to_number_witness :
    mapOpenApiSchemaToJsonSchema envC6 1 0 =
      some (.objS (.single "number") none false false false false false false none none)
    ∧ jType (.objS (.single "number") none false false false false false false none none) =
        .single (if "integer" = "integer" then "number" else "integer")
    ∧ primTypeAccepts "number" (.numV halfRational) = true
    ∧ primTypeAccepts "number" (.strV "1.5") = false
    ∧ primTypeAccepts "integer" (.numV halfRational) = false := by
  have h := integer_maps_to_number envC6 1 0
    (.objS (.single "number") none false false false false false false none none)
    "integer" rfl rfl rfl rfl
  exact ⟨rfl, h.1, h.2.1 halfRational, h.2.2.1 "1.5", h.2.2.2 halfRational (by decide)⟩

/-! C7 -/

/-- C7 counterexample: the nullable integer node translates to the type
union [number, null], not the union of the originally declared type and
null ([integer, null]) that the claim states. -/
theorem nullable_integer_counterexample :
    mapOpenApiSchemaToJsonSchema envC7 1 0 =
      some (.objS (.multiple ["number", "null"]) none false false false false false false
        none none)
    ∧ jType (.objS (.multiple ["number", "null"]) none false false false false false false
        none none) ≠ specNullableUnion (envC7 0).ty
    ∧ (envC7 0).ty = .single "integer" ∧ (envC7 0).nullable = true := by
  refine ⟨rfl, by decide, rfl, rfl⟩

/-- C7 (amended): the translated type of a nullable node is the union of
the declared type(s) after the integer-to-number coercion and null, and
exactly null when no type was declared. -/
theorem nullable_union_after_coercion (env : Env) (fuel id : Nat) (j : JSchema)
    (h : mapOpenApiSchemaToJsonSchema env fuel id = some j)
    (href : (env id).ref = none) (hn : (env id).nullable = true) :
    jType j = specNullableUnion (coerceType (env id).ty)
    ∧ ((env id).ty = .noneTy → jType j = .single "null") := by
  have hu : nullableAdjust (coerceType (env id).ty) = specNullableUnion (coerceType (env id).ty) := by
    generalize coerceType (env id).ty = t
    cases t <;> rfl
  have h1 : jType j = specNullableUnion (coerceType (env id).ty) := by
    rw [jType_of_map env fuel id j h href, hn, if_pos rfl, hu]
  refine ⟨h1, ?_⟩
  intro hnone
  rw [h1, hnone]
  rfl

/-- Witness for C7 (amended): the nullable integer node gets type
[number, null]; a nullable node with no type gets exactly null. -/
theorem nullable_union_after_coercion_witness :
    jType (.objS (.multiple ["number", "null"]) none false false false false false false
      none none) = specNullableUnion (coerceType (envC7 0).ty)
    ∧ specNullableUnion (coerceType (envC7 0).ty) = .multiple ["number", "null"] := by
  have h := nullable_union_after_coercion envC7 1 0
    (.objS (.multiple ["number", "null"]) none false false false false false false none none)
    rfl rfl rfl
  exact ⟨h.1, rfl⟩

/-! C4 -/

/-- C4 counterexample: translating a nullable object schema does not
recurse into its properties (the adjusted type is a union list, not the
exact string "object"), so the translated result's property a is the
verbatim-carried source node 1, which still has its example field. -/
theorem nested_presentation_retained :
    mapOpenApiSchemaToJsonSchema envC4 2 0 =
      some (.objS (.multiple ["object", "null"]) none false false false false false false
        (some [("a", .raw 1)]) none)
    ∧ jProp (.objS (.multiple ["object", "null"]) none false false false false false false
        (some [("a", .raw 1)]) none) "a" = some (.raw 1)
    ∧ presentHere envC4 (.raw 1) = true
    ∧ (envC4 1).hasExample = true :=
  ⟨rfl, rfl, rfl, rfl⟩

/-- The stripped predicate on a produced object node reduces to the
deleted flags plus the predicate on its property and item slots. -/
theorem strippedMapped_objS (t : STy) (d : Option String)
    (props : Option (List (String × JSchema))) (its : Option JSchema) :
    strippedMapped (.objS t d false false false false false false props its) =
      (strippedOptList props && strippedOptSchema its) := by
  rw [strippedMapped.eq_def]
  cases props <;> cases its <;> simp [strippedOptList, strippedOptSchema]

/-- Entries carried over verbatim are trivially within the stripped
predicate (they are raw references or boolean schemas). -/
theorem strippedList_rawEntries (plist : List (String × SEntry)) :
    strippedList (plist.map rawEntry) = true := by
  induction plist with
  | nil => rfl
  | cons hd tl ih =>
    obtain ⟨k, e⟩ := hd
    cases e <;> simp [rawEntry, strippedList, strippedMapped, ih]

/-- C4 (amended): every schema object the translator itself produces —
the root of a successful translation and every property or item schema
it recursed into — has the six presentation-only fields deleted; slots
it carried over verbatim (property or item slots of a node whose
adjusted type is not exactly the single string object or array, such as
a nullable object) are untranslated references not covered by the
guarantee. -/
theorem presentation_fields_stripped : ∀ fuel env id j,
    mapOpenApiSchemaToJsonSchema env fuel id = some j → strippedMapped j = true := by
  intro fuel
  induction fuel with
  | zero =>
    intro env id j h
    exact Option.noConfusion h
  | succ f ih =>
    have entries : ∀ (env : Env) (l : List (String × SEntry)) out,
        mapEntriesWith (fun i => mapOpenApiSchemaToJsonSchema env f i) l = some out →
        strippedList out = true := by
      intro env l
      induction l with
      | nil =>
        intro out h
        cases h
        rfl
      | cons hd tl ihl =>
        intro out h
        obtain ⟨k, e⟩ := hd
        cases e with
        | boolE b =>
          simp only [mapEntriesWith] at h
          split at h
          · cases h
            rename_i l' heq
            simp [strippedList, strippedMapped, ihl l' heq]
          · exact Option.noConfusion h
        | nodeRef i =>
          simp only [mapEntriesWith] at h
          split at h
          · rename_i j' heq1
            split at h
            · cases h
              rename_i l' heq2
              simp [strippedList, ih env i j' heq1, ihl l' heq2]
            · exact Option.noConfusion h
          · exact Option.noConfusion h
    intro env id j h
    simp only [mapOpenApiSchemaToJsonSchema] at h
    split at h
    · cases h
      rfl
    · split at h
      · exact Option.noConfusion h
      · rename_i props hprops
        split at h
        · exact Option.noConfusion h
        · rename_i its hits
          cases h
          have hp : strippedOptList props = true := by
            cases props with
            | none => rfl
            | some l =>
              show strippedList l = true
              cases hps : (env id).properties with
              | none =>
                simp only [hps, Option.some.injEq] at hprops
                exact Option.noConfusion hprops
              | some plist =>
                simp only [hps] at hprops
                by_cases hobj : (if (env id).nullable = true
                    then nullableAdjust (coerceType (env id).ty)
                    else coerceType (env id).ty) = STy.single "object"
                · rw [if_pos hobj] at hprops
                  cases heq : mapEntriesWith (fun i => mapOpenApiSchemaToJsonSchema env f i)
                      plist with
                  | some l2 =>
                    simp only [heq, Option.some.injEq] at hprops
                    exact hprops ▸ entries env plist l2 heq
                  | none =>
                    simp only [heq] at hprops
                    exact Option.noConfusion hprops
                · rw [if_neg hobj] at hprops
                  simp only [Option.some.injEq] at hprops
                  cases hprops
                  exact strippedList_rawEntries _
          have hi : strippedOptSchema its = true := by
            cases its with
            | none => rfl
            | some j' =>
              show strippedMapped j' = true
              cases hit : (env id).items with
              | none =>
                simp only [hit, Option.some.injEq] at hits
                exact Option.noConfusion hits
              | some e =>
                cases e with
                | boolE b =>
                  simp only [hit, Option.some.injEq] at hits
                  cases hits
                  rfl
                | nodeRef i =>
                  simp only [hit] at hits
                  by_cases harr : (if (env id).nullable = true
                      then nullableAdjust (coerceType (env id).ty)
                      else coerceType (env id).ty) = STy.single "array"
                  · rw [if_pos harr] at hits
                    cases heq : mapOpenApiSchemaToJsonSchema env f i with
                    | some j2 =>
                      simp only [heq, Option.some.injEq] at hits
                      exact hits ▸ ih env i j2 heq
                    | none =>
                      simp only [heq] at hits
                      exact Option.noConfusion hits
                  · rw [if_neg harr] at hits
                    simp only [Option.some.injEq] at hits
                    cases hits
                    rfl
          rw [strippedMapped_objS]
          simp [hp, hi]

/-- Witness for C4 (amended): a plain object schema whose property
carries an example field translates with the property recursed into and
the example field gone. -/
theorem presentation_fields_stripped_witness :
    mapOpenApiSchemaToJsonSchema envStrip 2 0 =
      some (.objS (.single "object") none false false false false false false
        (some [("a", .objS (.single "string") none false false false false false false
          none none)]) none)
    ∧ strippedMapped (.objS (.single "object") none false false false false false false
        (some [("a", .objS (.single "string") none false false false false false false
          none none)]) none) = true
    ∧ (envStrip 1).hasExample = true := by
  refine ⟨rfl, ?_, rfl⟩
  exact presentation_fields_stripped 2 envStrip 0 _ rfl

/-! C1 -/

/-- Translating an object node whose single property's translation does
not return within the given fuel does not return either: the recursion
into the property never comes back. -/
theorem map_none_of_prop_none (env : Env) (fuel : Nat) (id : Nat) (k : String) (i : Nat)
    (h1 : (env id).ref = none) (h2 : (env id).ty = .single "object")
    (h3 : (env id).nullable = false)
    (h4 : (env id).properties = some [(k, .nodeRef i)])
    (h5 : mapOpenApiSchemaToJsonSchema env fuel i = none) :
    mapOpenApiSchemaToJsonSchema env (fuel + 1) id = none := by
  simp only [mapOpenApiSchemaToJsonSchema, h1, h2, h3, h4]
  simp [coerceType, mapEntriesWith, h5]

/-- C1: the schema translator has no visited set: re-entering a node on
the current recursion path is not short-circuited, and on a cyclic
schema graph the translation never returns, whatever recursion depth it
is given — for a depth-1 cycle (a self-referencing property) and a
depth-2 cycle (mutual reference through an intermediate property)
alike.  This contradicts the spec's cycle-detection contract and the
repository's own changelog entry 3.1.2. -/
theorem cyclic_schema_translation_diverges :
    (∀ fuel, mapOpenApiSchemaToJsonSchema envCycle1 fuel 0 = none)
    ∧ (∀ fuel, mapOpenApiSchemaToJsonSchema envCycle2 fuel 0 = none) := by
  constructor
  · intro fuel
    induction fuel with
    | zero => rfl
    | succ f ih => exact map_none_of_prop_none envCycle1 f 0 "self" 0 rfl rfl rfl rfl ih
  · have both : ∀ fuel, mapOpenApiSchemaToJsonSchema envCycle2 fuel 0 = none
        ∧ mapOpenApiSchemaToJsonSchema envCycle2 fuel 1 = none := by
      intro fuel
      induction fuel with
      | zero => exact ⟨rfl, rfl⟩
      | succ f ih =>
        exact ⟨map_none_of_prop_none envCycle2 f 0 "a" 1 rfl rfl rfl rfl ih.2,
          map_none_of_prop_none envCycle2 f 1 "b" 0 rfl rfl rfl rfl ih.1⟩
    exact fun fuel => (both fuel).1

/-! C5 -/

/-- Assigning a key makes it a key of the map. -/
theorem upsert_mem_keys {α : Type} (l : List (String × α)) (k : String) (v : α) :
    k ∈ (upsert l k v).map Prod.fst := by
  induction l with
  | nil => simp [upsert]
  | cons hd tl ih =>
    obtain ⟨k', v'⟩ := hd
    unfold upsert
    split
    · simp
    · simp only [List.map_cons, List.mem_cons]
      exact Or.inr ih

/-- Assigning a key preserves the existing keys of the map. -/
theorem upsert_mem_keys_of_mem {α : Type} (l : List (String × α)) (k n : String) (v : α)
    (h : n ∈ l.map Prod.fst) : n ∈ (upsert l k v).map Prod.fst := by
  induction l with
  | nil => cases h
  | cons hd tl ih =>
    obtain ⟨k', v'⟩ := hd
    simp only [List.map_cons, List.mem_cons] at h
    unfold upsert
    split
    · rename_i hk
      rcases h with rfl | h
      · subst hk
        simp
      · simp only [List.map_cons, List.mem_cons]
        exact Or.inr h
    · rcases h with rfl | h
      · simp
      · simp only [List.map_cons, List.mem_cons]
        exact Or.inr (ih h)

/-- The required names of an assembled object schema all come from the
accumulated required list. -/
theorem inputRequired_mkInput (props : List (String × JSchema)) (req : List String) :
    ∀ n, n ∈ inputRequired (mkInput props req) → n ∈ req := by
  intro n hn
  unfold mkInput inputRequired at hn
  by_cases h : req.length > 0
  · rw [if_pos h] at hn
    exact hn
  · rw [if_neg h] at hn
    cases hn

/-- The property keys of an assembled object schema. -/
theorem inputPropKeys_mkInput (props : List (String × JSchema)) (req : List String) :
    inputPropKeys (mkInput props req) = props.map Prod.fst := rfl

/-- Membership after the requestBody push. -/
theorem pushReq_mem (req : List String) (b : Bool) (n : String)
    (h : n ∈ pushReq req b) : n ∈ req ∨ n = "requestBody" := by
  unfold pushReq at h
  by_cases hb : b = true
  · rw [if_pos hb] at h
    rcases List.mem_append.mp h with h | h
    · exact Or.inl h
    · simp at h
      exact Or.inr h
  · rw [if_neg hb] at h
    exact Or.inl h

/-- The parameter loop preserves the invariant that every required name
is a property key. -/
theorem assembleParams_inv (env : Env) (fuel : Nat) : ∀ (ps : List Param)
    (props : List (String × JSchema)) (req : List String)
    (out : List (String × JSchema) × List String),
    assembleParams env fuel ps props req = some out →
    (∀ n, n ∈ req → n ∈ props.map Prod.fst) →
    (∀ n, n ∈ out.2 → n ∈ out.1.map Prod.fst) := by
  intro ps
  induction ps with
  | nil =>
    intro props req out h hinv
    cases h
    exact hinv
  | cons p ps ih =>
    intro props req out h hinv
    by_cases hname : p.name = ""
    · rw [assembleParams, if_pos hname] at h
      exact ih props req out h hinv
    · rw [assembleParams, if_neg hname] at h
      cases hsch : p.schema with
      | none =>
        simp only [hsch] at h
        exact ih props req out h hinv
      | some sid =>
        simp only [hsch] at h
        cases hmap : mapOpenApiSchemaToJsonSchema env fuel sid with
        | none =>
          simp only [hmap] at h
          exact Option.noConfusion h
        | some js =>
          simp only [hmap] at h
          refine ih _ _ out h ?_
          intro n hn
          by_cases hreq : p.required = true
          · rw [if_pos hreq] at hn
            rcases List.mem_append.mp hn with hn | hn
            · exact upsert_mem_keys_of_mem props p.name n _ (hinv n hn)
            · simp at hn
              subst hn
              exact upsert_mem_keys props p.name _
          · rw [if_neg hreq] at hn
            exact upsert_mem_keys_of_mem props p.name n _ (hinv n hn)

/-- The common requestBody ending: pushing the reserved name and
installing the property under it preserves the invariant. -/
theorem mkInput_upsert_ok (props0 : List (String × JSchema)) (req0 : List String)
    (X : JSchema) (b : Bool)
    (hbase : ∀ n, n ∈ req0 → n ∈ props0.map Prod.fst) :
    ∀ n, n ∈ inputRequired (mkInput (upsert props0 "requestBody" X) (pushReq req0 b)) →
      n ∈ inputPropKeys (mkInput (upsert props0 "requestBody" X) (pushReq req0 b)) := by
  intro n hn
  have h1 := inputRequired_mkInput _ _ n hn
  rw [inputPropKeys_mkInput]
  rcases pushReq_mem req0 b n h1 with h | rfl
  · exact upsert_mem_keys_of_mem props0 "requestBody" n X (hbase n h)
  · exact upsert_mem_keys props0 "requestBody" X

/-- C5: for every operation the assembler processes, every name in the
produced object schema's required list is a key of its properties map. -/
theorem required_subset_properties (env : Env) (fuel : Nat) (op : Operation)
    (res : GenResult) (h : generateInputSchema env fuel op = some res) :
    ∀ n, n ∈ inputRequired res.inputSchema → n ∈ inputPropKeys res.inputSchema := by
  unfold generateInputSchema at h
  cases hap : assembleParams env fuel op.parameters [] [] with
  | none =>
    simp only [hap] at h
    exact Option.noConfusion h
  | some pr =>
    obtain ⟨props0, req0⟩ := pr
    simp only [hap] at h
    have hbase : ∀ n, n ∈ req0 → n ∈ props0.map Prod.fst :=
      assembleParams_inv env fuel op.parameters [] [] (props0, req0) hap
        (by intro n hn; cases hn)
    cases hrb : op.requestBody with
    | none =>
      simp only [hrb] at h
      cases h
      intro n hn
      rw [inputPropKeys_mkInput]
      exact hbase n (inputRequired_mkInput _ _ n hn)
    | some rb =>
      simp only [hrb] at h
      cases hjs : bodyJsonSchemaId rb with
      | some sid =>
        simp only [hjs] at h
        cases hmap : mapOpenApiSchemaToJsonSchema env fuel sid with
        | none =>
          simp only [hmap] at h
          exact Option.noConfusion h
        | some bs =>
          simp only [hmap] at h
          cases h
          exact mkInput_upsert_ok props0 req0 _ rb.required hbase
      | none =>
        simp only [hjs] at h
        cases hfc : rb.content.head? with
        | some fc =>
          simp only [hfc] at h
          cases h
          exact mkInput_upsert_ok props0 req0 _ rb.required hbase
        | none =>
          simp only [hfc] at h
          cases h
          intro n hn
          rw [inputPropKeys_mkInput]
          exact hbase n (inputRequired_mkInput _ _ n hn)

/-- Witness for C5: the required list of the assembled contract for an
operation with a required path parameter and a required JSON body is
contained in its property keys. -/
theorem required_subset_properties_witness :
    generateInputSchema envC6 2 opC5 = some resC5
    ∧ inputRequired resC5.inputSchema = ["id", "requestBody"]
    ∧ (∀ n, n ∈ inputRequired resC5.inputSchema → n ∈ inputPropKeys resC5.inputSchema) := by
  refine ⟨rfl, rfl, ?_⟩
  exact required_subset_properties envC6 2 opC5 resC5 rfl

/-! C3 -/

theorem charDigit_digitChar (d : Nat) (h : d < 10) : charDigit (digitChar d) = d := by
  interval_cases d <;> rfl

/-- The fueled digit renderer agrees with the digit expansion whenever
the fuel covers the number. -/
theorem natDecimalAux_eq_digits : ∀ (fuel n : Nat), n ≤ fuel →
    natDecimalAux fuel n = (Nat.digits 10 n).reverse.map digitChar := by
  intro fuel
  induction fuel with
  | zero =>
    intro n hn
    interval_cases n
    simp [natDecimalAux]
  | succ f ih =>
    intro n hn
    cases n with
    | zero => simp [natDecimalAux]
    | succ m =>
      rw [natDecimalAux]
      have hdiv : (m + 1) / 10 ≤ f := by
        have := Nat.div_le_self (m + 1) 10
        have h2 : (m + 1) / 10 < m + 1 := Nat.div_lt_self (by omega) (by omega)
        omega
      rw [ih _ hdiv]
      rw [Nat.digits_def' (by norm_num : 1 < 10) (Nat.succ_pos m)]
      rw [List.reverse_cons, List.map_append]
      rfl

theorem parseDecimal_natDecimal (n : Nat) : parseDecimal (natDecimal n) = n := by
  unfold natDecimal
  by_cases h : n = 0
  · subst h
    rfl
  · rw [if_neg h, natDecimalAux_eq_digits n n (le_refl n)]
    show Nat.ofDigits 10 ((((Nat.digits 10 n).reverse.map digitChar).map charDigit).reverse) = n
    rw [List.map_map]
    have h2 : (Nat.digits 10 n).reverse.map (charDigit ∘ digitChar) =
        (Nat.digits 10 n).reverse.map id := by
      apply List.map_congr_left
      intro d hd
      exact charDigit_digitChar d (Nat.digits_lt_base (by norm_num) (List.mem_reverse.mp hd))
    rw [h2, List.map_id, List.reverse_reverse, Nat.ofDigits_digits]

theorem natDecimal_injective : Function.Injective natDecimal := by
  intro a b h
  have h2 := congrArg parseDecimal h
  rwa [parseDecimal_natDecimal, parseDecimal_natDecimal] at h2

/-- Suffixed candidate names are determined by their counter. -/
theorem mkCand_inj (base : String) (a b : Nat) (h : mkCand base a = mkCand base b) :
    a = b := by
  apply natDecimal_injective
  apply string_ext
  have hd := congrArg String.data h
  simp only [mkCand, String.data_append, List.append_assoc] at hd
  exact (List.append_right_inj _).mp ((List.append_right_inj _).mp hd)

/-- The collision loop returns the first free candidate when a free one
exists within the given fuel. -/
theorem searchFree_spec (used : List String) (base : String) : ∀ (fuel c : Nat),
    (∃ k, c ≤ k ∧ k < c + fuel ∧ mkCand base k ∉ used) →
    ∃ k0, c ≤ k0 ∧ searchFree used base c fuel = mkCand base k0 ∧ mkCand base k0 ∉ used
      ∧ (∀ j, c ≤ j → j < k0 → mkCand base j ∈ used) := by
  intro fuel
  induction fuel with
  | zero =>
    intro c hex
    obtain ⟨k, hk1, hk2, _⟩ := hex
    omega
  | succ f ih =>
    intro c hex
    by_cases hc : used.contains (mkCand base c) = true
    · have hfree : ∃ k, c + 1 ≤ k ∧ k < (c + 1) + f ∧ mkCand base k ∉ used := by
        obtain ⟨k, hk1, hk2, hk3⟩ := hex
        have hkc : k ≠ c := by
          intro hk
          subst hk
          exact hk3 ((contains_iff_mem used _).mp hc)
        exact ⟨k, by omega, by omega, hk3⟩
      obtain ⟨k0, h1, h2, h3, h4⟩ := ih (c + 1) hfree
      refine ⟨k0, by omega, ?_, h3, ?_⟩
      · rw [searchFree, if_pos hc]
        exact h2
      · intro j hj1 hj2
        by_cases hjc : j = c
        · subst hjc
          exact (contains_iff_mem used _).mp hc
        · exact h4 j (by omega) hj2
    · refine ⟨c, le_refl c, ?_, ?_, ?_⟩
      · rw [searchFree, if_neg hc]
      · intro hmem
        exact hc ((contains_iff_mem used _).mpr hmem)
      · intro j hj1 hj2
        omega

/-- Pigeonhole: among used.length + 1 distinct candidates at least one
is not in the used set. -/
theorem exists_free_cand (used : List String) (base : String) (c : Nat) :
    ∃ k, c ≤ k ∧ k < c + (used.length + 1) ∧ mkCand base k ∉ used := by
  by_contra hcon
  push_neg at hcon
  have himg : (Finset.Ico c (c + (used.length + 1))).image (mkCand base) ⊆ used.toFinset := by
    intro x hx
    simp only [Finset.mem_image, Finset.mem_Ico] at hx
    obtain ⟨k, ⟨hk1, hk2⟩, rfl⟩ := hx
    exact List.mem_toFinset.mpr (hcon k hk1 hk2)
  have hcard : ((Finset.Ico c (c + (used.length + 1))).image (mkCand base)).card
      = used.length + 1 := by
    rw [Finset.card_image_of_injOn (fun a _ b _ hab => mkCand_inj base a b hab)]
    simp
  have hle := Finset.card_le_card himg
  rw [hcard] at hle
  have h2 := List.toFinset_card_le used
  omega

/-- The resolved name is never one already used. -/
theorem resolveName_not_mem (used : List String) (base : String) :
    resolveName used base ∉ used := by
  unfold resolveName
  split
  · obtain ⟨k0, _, h2, h3, _⟩ :=
      searchFree_spec used base (used.length + 1) 1 (exists_free_cand used base 1)
    rw [h2]
    exact h3
  · rename_i hc
    intro hmem
    exact hc ((contains_iff_mem used base).mpr hmem)

/-- A free base name is kept unchanged. -/
theorem resolveName_of_not_mem (used : List String) (base : String) (h : base ∉ used) :
    resolveName used base = base := by
  unfold resolveName
  rw [if_neg (fun hc => h ((contains_iff_mem used base).mp hc))]

/-- A colliding base name receives the first free numeric suffix
counting upward from 1. -/
theorem resolveName_suffix (used : List String) (base : String) (h : base ∈ used) :
    ∃ k, 1 ≤ k ∧ resolveName used base = mkCand base k ∧ mkCand base k ∉ used
      ∧ ∀ j, 1 ≤ j → j < k → mkCand base j ∈ used := by
  unfold resolveName
  rw [if_pos ((contains_iff_mem used base).mpr h)]
  exact searchFree_spec used base (used.length + 1) 1 (exists_free_cand used base 1)

/-- The method loop keeps every emitted name in the used set and keeps
the emitted names duplicate-free. -/
theorem extractMethods_inv (env : Env) (fuel : Nat) (g : String → String → String)
    (path : String) (item : PathItem) : ∀ (ms : List String) (used : List String)
    (acc : List Tool) (out : List String × List Tool),
    extractMethods env fuel g path item ms used acc = some out →
    (∀ n, n ∈ acc.map Tool.name → n ∈ used) → (acc.map Tool.name).Nodup →
    (∀ n, n ∈ out.2.map Tool.name → n ∈ out.1) ∧ (out.2.map Tool.name).Nodup := by
  intro ms
  induction ms with
  | nil =>
    intro used acc out h hsub hnd
    cases h
    exact ⟨hsub, hnd⟩
  | cons m ms ih =>
    intro used acc out h hsub hnd
    cases hop : lookupOp item m with
    | none =>
      simp only [extractMethods, hop] at h
      exact ih used acc out h hsub hnd
    | some op =>
      simp only [extractMethods, hop] at h
      by_cases hbn : baseNameOf g op m path = ""
      · rw [if_pos hbn] at h
        exact ih used acc out h hsub hnd
      · rw [if_neg hbn] at h
        cases hgen : generateInputSchema env fuel op with
        | none =>
          simp only [hgen] at h
          exact Option.noConfusion h
        | some res =>
          simp only [hgen] at h
          refine ih _ _ out h ?_ ?_
          · intro n hn
            rw [List.map_append] at hn
            rcases List.mem_append.mp hn with hn | hn
            · exact List.mem_cons_of_mem _ (hsub n hn)
            · simp only [List.map_cons, List.map_nil, List.mem_singleton] at hn
              subst hn
              exact List.mem_cons_self _ _
          · rw [List.map_append]
            refine List.Nodup.append hnd (List.nodup_singleton _) ?_
            intro a ha hb
            simp only [List.map_cons, List.map_nil, List.mem_singleton] at hb
            subst hb
            exact resolveName_not_mem used _ (hsub _ ha)

/-- The path loop preserves the same invariant. -/
theorem extractPaths_inv (env : Env) (fuel : Nat) (g : String → String → String) :
    ∀ (paths : List (String × Option PathItem)) (used : List String)
    (acc : List Tool) (out : List String × List Tool),
    extractPaths env fuel g paths used acc = some out →
    (∀ n, n ∈ acc.map Tool.name → n ∈ used) → (acc.map Tool.name).Nodup →
    (out.2.map Tool.name).Nodup := by
  intro paths
  induction paths with
  | nil =>
    intro used acc out h hsub hnd
    cases h
    exact hnd
  | cons pr rest ih =>
    intro used acc out h hsub hnd
    obtain ⟨p, item?⟩ := pr
    cases item? with
    | none =>
      simp only [extractPaths] at h
      exact ih used acc out h hsub hnd
    | some item =>
      simp only [extractPaths] at h
      cases hm : extractMethods env fuel g p item httpMethods used acc with
      | none =>
        simp only [hm] at h
        exact Option.noConfusion h
      | some mid =>
        simp only [hm] at h
        obtain ⟨hsub', hnd'⟩ :=
          extractMethods_inv env fuel g p item httpMethods used acc mid hm hsub hnd
        exact ih mid.1 mid.2 out h hsub' hnd'

/-- C3: tool extraction is a pure function of the document (paths in
declaration order, methods in the fixed canonical order), every name in
the extracted tool list is unique, a free base name is kept as is, and a
colliding base name receives base_k for the first free k counting upward
from 1. -/
theorem tool_names_unique :
    (∀ env fuel g api tools, extractToolsFromApi env fuel g api = some tools →
      (tools.map Tool.name).Nodup)
    ∧ (∀ used base, base ∉ used → resolveName used base = base)
    ∧ (∀ used base, base ∈ used →
        ∃ k, 1 ≤ k ∧ resolveName used base = mkCand base k ∧ mkCand base k ∉ used
          ∧ ∀ j, 1 ≤ j → j < k → mkCand base j ∈ used) := by
  refine ⟨?_, resolveName_of_not_mem, resolveName_suffix⟩
  intro env fuel g api tools h
  unfold extractToolsFromApi at h
  cases hps : api.paths with
  | none =>
    simp only [hps] at h
    cases h
    exact List.nodup_nil
  | some ps =>
    simp only [hps] at h
    cases hep : extractPaths env fuel g ps [] [] with
    | none =>
      rw [hep] at h
      exact Option.noConfusion h
    | some out =>
      rw [hep] at h
      simp only [Option.map_some'] at h
      cases h
      exact extractPaths_inv env fuel g ps [] [] out hep
        (by intro n hn; cases hn) List.nodup_nil

/-- Witness for C3: two operations deriving the base name getA extract
as getA and getA_1, and the resulting name list is duplicate-free. -/
theorem tool_names_unique_witness :
    extractToolsFromApi envC6 1 genOpId0 apiC3 = some toolsC3
    ∧ toolsC3.map Tool.name = ["getA", "getA_1"]
    ∧ (toolsC3.map Tool.name).Nodup
    ∧ resolveName ["getA"] "getA" = mkCand "getA" 1
    ∧ mkCand "getA" 1 = "getA_1"
    ∧ (∃ k, 1 ≤ k ∧ resolveName ["getA"] "getA" = mkCand "getA" k
        ∧ mkCand "getA" k ∉ ["getA"]
        ∧ ∀ j, 1 ≤ j → j < k → mkCand "getA" j ∈ ["getA"]) := by
  refine ⟨rfl, rfl, ?_, rfl, rfl, ?_⟩
  · exact tool_names_unique.1 envC6 1 genOpId0 apiC3 toolsC3 rfl
  · exact tool_names_unique.2.2 ["getA"] "getA" (by simp)

end OpenApiMcp
